import Mathlib

/-!
Verification development for the HackerOne hacktivity aggregation tool
(`tools/hackerone_top/api_client.py`).

The Python source is shallowly embedded below.  Conventions of the embedding:

* JSON-ish response pages are typed records (`Node`, `Included`, `Page`).
  A relationship's `data` object is `Option RelData`, where `none` covers an
  absent key, a `null` value and an empty dict (all of which are falsy and
  are treated identically by every use site in the source).
* Python string truthiness (`None` and `""` are falsy) is modelled by
  `strTruthy`; numeric truthiness (`None` and `0` are falsy) by `numTruthy`.
* Award amounts are modelled as exact integers (`Int`): every operation the
  source performs on them (or-chains, `> 0` comparisons, `groupby` sums) is
  exact on the integral values the claims are about.
* Timestamps carried by records are abstract UTC instants (`Time := Int`).
  A node's raw timestamp attribute is modelled twice: `NodeE` keeps the
  attribute value itself (absent/falsy, a parseable ISO string, or a
  string `datetime.fromisoformat` raises on — the `ValueError` path of
  source lines 181 and 256), with the fallible extraction
  `resolvePagePrimaryE` / `resolvePageUE`; `Node` is the well-formed
  erasure (`NodeE.toNode`) used by the total resolvers, which agree with
  the fallible ones whenever every truthy timestamp parses
  (`resolvePagePrimaryE_refines`, `resolvePageUE_refines`).
* The network is a function `Option String → Page`: the response the remote
  endpoint gives to a request carrying the given cursor / next-page URL
  (`none` is the initial, cursor-less request).  HTTP statuses and the
  parameter-spelling probe of the source are outside the claims and are
  abstracted: a request yields its page.
-/

/-- UTC instant, as an abstract integer timeline. -/
abbrev Time := Int

/-- Python string truthiness: `None` and the empty string are falsy.
Normalises a possibly-falsy optional string to `none`. -/
def strTruthy : Option String → Option String
  | some s => if s = "" then none else some s
  | none => none

/-- Python `a or b` on two optional strings, as used by the source's
`... .get("name") or ... .get("handle")` chains.  The result is normalised
to `none` whenever it is falsy, which is equivalent at every use site. -/
def strOr (a b : Option String) : Option String :=
  match strTruthy a with
  | some s => some s
  | none => strTruthy b

/-- Python numeric truthiness: `None` and `0` are falsy. -/
def numTruthy : Option Int → Option Int
  | some q => if q = 0 then none else some q
  | none => none

/-- Python `a or b` on two optional numbers (normalised to `none` when
falsy, which is equivalent at every use site of the source). -/
def numOr (a b : Option Int) : Option Int :=
  match numTruthy a with
  | some q => some q
  | none => numTruthy b

/-- Numeric value of a decimal digit character, `none` when the character is
not a digit.  Models one `\d` of CPython's `_strptime` regex. -/
def charDigit (c : Char) : Option Nat :=
  if 48 ≤ c.toNat ∧ c.toNat ≤ 57 then some (c.toNat - 48) else none

/-- Year field of CPython's `strptime` directive `%Y`: exactly four digits. -/
def yearOfChars : List Char → Option Nat
  | [a, b, c, d] =>
    match charDigit a, charDigit b, charDigit c, charDigit d with
    | some x, some y, some z, some w => some (1000 * x + 100 * y + 10 * z + w)
    | _, _, _, _ => none
  | _ => none

/-- Month field of CPython's `strptime` directive `%m`, whose regex is
`1[0-2]|0[1-9]|[1-9]`, with the whole input consumed (trailing characters
make `strptime` raise, hence `none`). -/
def monthOfChars : List Char → Option Nat
  | [c] =>
    match charDigit c with
    | some d => if 1 ≤ d then some d else none
    | none => none
  | [c1, c2] =>
    match charDigit c1, charDigit c2 with
    | some d1, some d2 =>
      if d1 = 1 ∧ d2 ≤ 2 then some (10 + d2)
      else if d1 = 0 ∧ 1 ≤ d2 then some d2
      else none
    | _, _ => none
  | _ => none

/-- Model of `datetime.strptime(month, "%Y-%m")`: four year digits, a
literal dash, a month matching `%m`, nothing left over, and the year at
least `datetime.MINYEAR = 1` (year `0000` raises `ValueError`).  Returns
the parsed `(year, month)` pair, `none` when `strptime` raises. -/
def strptime_Ym (s : String) : Option (Nat × Nat) :=
  match s.data with
  | a :: b :: c :: d :: sep :: rest =>
    if sep = '-' then
      match yearOfChars [a, b, c, d], monthOfChars rest with
      | some y, some m => if 1 ≤ y then some (y, m) else none
      | _, _ => none
    else none
  | _ => none

/-- Calendar date; the `datetime` values built by `parse_month` all carry
time 00:00:00 UTC, so the date triple determines them. -/
structure Date where
  year : Nat
  month : Nat
  day : Nat
deriving DecidableEq

/-- Embedding of `parse_month` (source lines 58-63): `strptime` gives the
first of the requested month, the end is the first of the following month,
December rolling the year.  `none` models the `ValueError` escaping when
the token does not parse. -/
def parse_month (month : String) : Option (Date × Date) :=
  match strptime_Ym month with
  | none => none
  | some (y, m) =>
    let start : Date := ⟨y, m, 1⟩
    let year := y + (if m = 12 then 1 else 0)
    let next_month := if m = 12 then 1 else m + 1
    some (start, ⟨year, next_month, 1⟩)

/-- A relationship's `data` object: its `id` and, when attributes are
embedded inline, their `name` and `handle` fields.  Fields hold the raw
values, including possibly empty (falsy) strings. -/
structure RelData where
  id : Option String
  name : Option String
  handle : Option String
deriving DecidableEq

/-- One entry of a page's `included` list (a non-empty resource object),
with the attribute fields the source reads from included resources. -/
structure Included where
  id : Option String
  name : Option String
  handle : Option String
  amount_in_usd : Option Int
  amount : Option Int
deriving DecidableEq

/-- One node of a page's `data` list: the attribute and relationship
fields the source reads.  `program`, `award` and `team` are the respective
relationships' `data` objects (`none` for absent / null / empty).  The two
timestamp fields hold already-parsed instants: this is the well-formed
erasure of `NodeE` below, which keeps the raw attribute together with the
`fromisoformat` failure path. -/
structure Node where
  id : Option String
  total_awarded_amount : Option Int
  total_awarded_amount_in_usd : Option Int
  awarded_amount : Option Int
  bounty_amount : Option Int
  latest_disclosable_activity_at : Option Time
  disclosed_at : Option Time
  program : Option RelData
  award : Option RelData
  team : Option RelData
deriving DecidableEq

/-- The `links.next` field of a page: absent (or of unusable type), a bare
string, or an object whose `href` is read. -/
inductive NextLink where
  | absent
  | asStr (s : String)
  | asDict (href : Option String)
deriving DecidableEq

/-- One JSON response page: `data` nodes, `included` side resources and the
`links.next` value. -/
structure Page where
  data : List Node
  included : List Included
  next : NextLink
deriving DecidableEq

/-- Embedding of the source's `HacktivityItem` dataclass. -/
structure HacktivityItem where
  id : String
  program : String
  total_awarded_amount : Int
  disclosed_at : Time
deriving DecidableEq

/-- Lookup in `included_by_id = {inc.get("id"): inc for inc in included}`:
a Python dict comprehension keeps the last entry for a duplicated key, so
the last element with the requested id wins. -/
def lookupIncluded (included : List Included) (key : Option String) : Option Included :=
  included.reverse.find? (fun inc => inc.id == key)

/-- Entity-name resolution of `fetch_hacktivity` (source lines 145-156):
inline `data.attributes.name or handle` first; when that is falsy, look the
relationship's id up in the included index and read its `name or handle`. -/
def resolveProgram (included : List Included) (node : Node) : Option String :=
  let inline :=
    match node.program with
    | some pd => strOr pd.name pd.handle
    | none => none
  match inline with
  | some p => some p
  | none =>
    match node.program with
    | some pd =>
      match lookupIncluded included pd.id with
      | some inc => strOr inc.name inc.handle
      | none => none
    | none => none

/-- The four-spelling amount or-chain on the node's own attributes
(source lines 159-164). -/
def inlineAmount (node : Node) : Option Int :=
  numOr node.total_awarded_amount
    (numOr node.total_awarded_amount_in_usd
      (numOr node.awarded_amount node.bounty_amount))

/-- Amount resolved through the `award` relationship and the included
index (source lines 166-175), `none` when nothing truthy is found. -/
def awardAmount (included : List Included) (node : Node) : Option Int :=
  match node.award with
  | some aw =>
    match lookupIncluded included aw.id with
    | some inc => numOr inc.amount_in_usd inc.amount
    | none => none
  | none => none

/-- Full amount resolution of `fetch_hacktivity` (source lines 158-176):
the inline chain, then — only when it is falsy — the award lookup, and
finally `float(total_awarded or 0.0)`. -/
def resolveAmount (included : List Included) (node : Node) : Int :=
  match inlineAmount node with
  | some q => q
  | none => (awardAmount included node).getD 0

/-- Per-node extraction of `fetch_hacktivity` (source lines 142-190) over
well-formed nodes: a node with falsy `latest_disclosable_activity_at` is
skipped (`continue`), otherwise an item is built with defaults `""` for a
missing id and `"Unknown Program"` for an unresolved program.  A present
but unparseable timestamp string makes the source raise at line 181; that
path is modelled by `resolveNodePrimaryE` below. -/
def resolveNodePrimary (included : List Included) (node : Node) : Option HacktivityItem :=
  match node.latest_disclosable_activity_at with
  | none => none
  | some t =>
    some
      { id := node.id.getD ""
        program := (resolveProgram included node).getD "Unknown Program"
        total_awarded_amount := resolveAmount included node
        disclosed_at := t }

/-- All items one page contributes in `fetch_hacktivity`. -/
def resolvePagePrimary (page : Page) : List HacktivityItem :=
  page.data.filterMap (resolveNodePrimary page.included)

/-- Entity-name resolution of `fetch_hacktivity_unfiltered` (source lines
239-244): only through the `team` relationship and the included index, and
only the `name` attribute. -/
def resolveProgramU (included : List Included) (node : Node) : Option String :=
  match node.team with
  | some td =>
    match lookupIncluded included td.id with
    | some inc => strTruthy inc.name
    | none => none
  | none => none

/-- Amount resolution of `fetch_hacktivity_unfiltered` (source lines
246-252): the same four-spelling inline chain, no award lookup, default 0. -/
def resolveAmountU (node : Node) : Int :=
  (inlineAmount node).getD 0

/-- Per-node extraction of `fetch_hacktivity_unfiltered` (source lines
236-264) over well-formed nodes: a node with falsy `disclosed_at` is
skipped.  A present but unparseable timestamp string makes the source
raise at line 256; that path is modelled by `resolveNodeUE` below. -/
def resolveNodeU (included : List Included) (node : Node) : Option HacktivityItem :=
  match node.disclosed_at with
  | none => none
  | some t =>
    some
      { id := node.id.getD ""
        program := (resolveProgramU included node).getD "Unknown Program"
        total_awarded_amount := resolveAmountU node
        disclosed_at := t }

/-- All items one page contributes in `fetch_hacktivity_unfiltered`. -/
def resolvePageU (page : Page) : List HacktivityItem :=
  page.data.filterMap (resolveNodeU page.included)

/-- Cursor read from `links.next` (source lines 193-199): a bare string is
taken as-is, an object contributes its `href`; a falsy result (absent,
null, empty string, other type) resolves to `none` and stops the loop. -/
def rawNext : NextLink → Option String
  | NextLink.absent => none
  | NextLink.asStr s => strTruthy (some s)
  | NextLink.asDict h => strTruthy h

/-- The well-known cursor query parameter the source unwraps. -/
def cursorKey : List Char := "page[cursor]=".data

/-- Python `sep in s` on character lists. -/
def strContains (sep : List Char) : List Char → Bool
  | [] => sep.isEmpty
  | c :: t => sep.isPrefixOf (c :: t) || strContains sep t

/-- Python `s.split(sep, 1)[1]`: everything after the first occurrence of
`sep` (unused when `sep` does not occur). -/
def afterFirst (sep : List Char) : List Char → List Char
  | [] => []
  | c :: t =>
    if sep.isPrefixOf (c :: t) then (c :: t).drop sep.length
    else afterFirst sep t

/-- Cursor unwrapping of `fetch_hacktivity` (source lines 201-203): when
the cursor is a full URL containing `page[cursor]=`, keep only what
follows the first occurrence. -/
def unwrapCursor (c : String) : String :=
  if strContains cursorKey c.data then String.mk (afterFirst cursorKey c.data) else c

/-- The next-page token as the source leaves it after resolution and
unwrapping (the value the loop computes — and then never uses). -/
def resolvedNext (nl : NextLink) : Option String :=
  (rawNext nl).map unwrapCursor

/-- Fetch loop of `fetch_hacktivity` (source lines 110-203).  `nextUrl`
mirrors the source's `next_url` variable: the source initialises it to
`None` and — although it resolves and unwraps a cursor at the bottom of
every iteration — never assigns it again, so the recursive call passes it
unchanged.  Returns the accumulated items together with the number of
loop iterations executed. -/
def fetch_hacktivity_go (server : Option String → Page) :
    Nat → Option String → List HacktivityItem → List HacktivityItem × Nat
  | 0, _, acc => (acc, 0)
  | fuel + 1, nextUrl, acc =>
    let page := server nextUrl
    let acc2 := acc ++ resolvePagePrimary page
    match rawNext page.next with
    | none => (acc2, 1)
    | some _ =>
      let rest := fetch_hacktivity_go server fuel nextUrl acc2
      (rest.1, rest.2 + 1)

/-- Embedding of `fetch_hacktivity`: the items it returns. -/
def fetch_hacktivity (server : Option String → Page) (max_pages : Nat) :
    List HacktivityItem :=
  (fetch_hacktivity_go server max_pages none []).1

/-- Number of pages `fetch_hacktivity` fetches (loop iterations executed). -/
def fetch_hacktivity_pageCount (server : Option String → Page) (max_pages : Nat) : Nat :=
  (fetch_hacktivity_go server max_pages none []).2

/-- Local month-and-positivity filter of `fetch_hacktivity_unfiltered`
(source line 267). -/
def monthFilter (st en : Time) (its : List HacktivityItem) : List HacktivityItem :=
  its.filter (fun it =>
    decide (st ≤ it.disclosed_at) && decide (it.disclosed_at < en) &&
      decide (0 < it.total_awarded_amount))

/-- The source's `all(it.disclosed_at < start for it in page_items)`. -/
def allOlder (st : Time) (its : List HacktivityItem) : Bool :=
  its.all (fun it => decide (it.disclosed_at < st))

/-- Fetch loop of `fetch_hacktivity_unfiltered` (source lines 222-283).
`cursor` mirrors the source's `cursor` variable: initialised to `None`,
never reassigned (the source stores the next href into a dead local
`next_url` instead), so the recursive call passes it unchanged.  The loop
breaks when a non-empty page is entirely older than the window start, or
when no usable `links.next` href is present. -/
def fetch_unfiltered_go (st en : Time) (server : Option String → Page) :
    Nat → Option String → List HacktivityItem → List HacktivityItem × Nat
  | 0, _, acc => (acc, 0)
  | fuel + 1, cursor, acc =>
    let page := server cursor
    let pageItems := resolvePageU page
    let acc2 := acc ++ monthFilter st en pageItems
    if (!pageItems.isEmpty) && allOlder st pageItems then (acc2, 1)
    else
      match rawNext page.next with
      | none => (acc2, 1)
      | some _ =>
        let rest := fetch_unfiltered_go st en server fuel cursor acc2
        (rest.1, rest.2 + 1)

/-- Embedding of `fetch_hacktivity_unfiltered`: the items it returns.  The
window bounds `st, en` are the instants of the `parse_month` dates of the
requested month. -/
def fetch_hacktivity_unfiltered (st en : Time) (server : Option String → Page)
    (max_pages : Nat) : List HacktivityItem :=
  (fetch_unfiltered_go st en server max_pages none []).1

/-- Number of pages `fetch_hacktivity_unfiltered` fetches. -/
def fetch_unfiltered_pageCount (st en : Time) (server : Option String → Page)
    (max_pages : Nat) : Nat :=
  (fetch_unfiltered_go st en server max_pages none []).2

/-- Fetch phase of `main` (source lines 355-358): the unfiltered fallback
runs exactly when the primary filtered fetch returned no items.  The
boolean records whether the fallback ran. -/
def main_items (serverF serverU : Option String → Page) (st en : Time)
    (max_pages : Nat) : List HacktivityItem × Bool :=
  let items := fetch_hacktivity serverF max_pages
  if items.isEmpty then (fetch_hacktivity_unfiltered st en serverU max_pages, true)
  else (items, false)

/-- One output row of `aggregate_by_program` (a row of the result frame). -/
structure AggRow where
  program : String
  total_bounty_usd : Int
  report_count : Nat
deriving DecidableEq

/-- Records that survive the `(it.total_awarded_amount or 0.0) > 0` row
filter of `aggregate_by_program` (source line 299). -/
def posItems (items : List HacktivityItem) : List HacktivityItem :=
  items.filter (fun it => decide (0 < it.total_awarded_amount))

/-- Code-point lexicographic comparison on character lists: Python's `<`
on strings, the key order of a pandas `groupby` over string keys. -/
def charsLtb : List Char → List Char → Bool
  | [], [] => false
  | [], _ :: _ => true
  | _ :: _, [] => false
  | a :: as, b :: bs => if a < b then true else if b < a then false else charsLtb as bs

/-- Python string `<` lifted to `String`. -/
def strLtb (a b : String) : Bool := charsLtb a.data b.data

/-- Sorted-set insertion of a group key: `pandas.groupby` (with its default
`sort=True`) keys are the distinct values in ascending order. -/
def insertName (n : String) : List String → List String
  | [] => [n]
  | x :: xs =>
    if strLtb n x then n :: x :: xs
    else if n = x then x :: xs
    else x :: insertName n xs

/-- The group keys of `df.groupby("program")`: distinct program names of
the filtered rows, in ascending order. -/
def groupKeys (items : List HacktivityItem) : List String :=
  (posItems items).foldl (fun acc it => insertName it.program acc) []

/-- The filtered rows belonging to one group key. -/
def contributors (items : List HacktivityItem) (p : String) : List HacktivityItem :=
  (posItems items).filter (fun it => it.program = p)

/-- One aggregated group: `total_bounty_usd = sum(bounty_usd)`,
`report_count = count(report_id)` over the group's rows (source lines
304-307). -/
def mkRow (items : List HacktivityItem) (p : String) : AggRow :=
  { program := p
    total_bounty_usd := ((contributors items p).map (fun it => it.total_awarded_amount)).sum
    report_count := (contributors items p).length }

/-- Strict "comes before" of the final `sort_values(["total_bounty_usd",
"report_count"], ascending=[False, False])`. -/
def rowLtb (a b : AggRow) : Bool :=
  decide (b.total_bounty_usd < a.total_bounty_usd) ||
    (decide (a.total_bounty_usd = b.total_bounty_usd) &&
      decide (b.report_count < a.report_count))

/-- Stable insertion for the final sort: a multi-column pandas
`sort_values` is a stable lexicographic sort, so a row is placed after
every already-placed row whose key does not strictly follow it. -/
def insertRow (r : AggRow) : List AggRow → List AggRow
  | [] => [r]
  | x :: xs => if rowLtb r x then r :: x :: xs else x :: insertRow r xs

/-- Stable sort of the grouped rows by descending total then count. -/
def sortRows (rows : List AggRow) : List AggRow :=
  rows.foldl (fun acc r => insertRow r acc) []

/-- Embedding of `aggregate_by_program` (source lines 288-310): filter to
strictly positive amounts, group by program name (keys ascending), sum and
count per group, then stable-sort by descending total and count.  The
source's two early returns for an empty frame coincide with the group-key
list being empty, so no separate case is needed. -/
def aggregate_by_program (items : List HacktivityItem) : List AggRow :=
  sortRows ((groupKeys items).map (mkRow items))

/-- The order in which `aggregate_by_program` actually emits its rows:
descending total, then descending count, then ascending program name. -/
def rowOrder (a b : AggRow) : Prop :=
  b.total_bounty_usd < a.total_bounty_usd
    ∨ (a.total_bounty_usd = b.total_bounty_usd ∧ b.report_count < a.report_count)
    ∨ (a.total_bounty_usd = b.total_bounty_usd ∧ a.report_count = b.report_count
        ∧ strLtb a.program b.program = true)

/-- Iteration count of the primary fetch loop: one page when the (always
cursor-less, by the dead `next_url`) response has no usable `links.next`,
otherwise the loop only stops at the fuel bound. -/
theorem fetch_go_count (server : Option String → Page) :
    ∀ (fuel : Nat) (nextUrl : Option String) (acc : List HacktivityItem),
      (fetch_hacktivity_go server fuel nextUrl acc).2
        = if rawNext (server nextUrl).next = none then min 1 fuel else fuel
  | 0, nextUrl, acc => by simp [fetch_hacktivity_go]
  | fuel + 1, nextUrl, acc => by
    simp only [fetch_hacktivity_go]
    cases h : rawNext (server nextUrl).next with
    | none => simp [h]
    | some c =>
      have ih := fetch_go_count server fuel nextUrl
        (acc ++ resolvePagePrimary (server nextUrl))
      simp only [h] at ih ⊢
      simp only [if_neg (by simp : ¬ (some c = none))] at ih
      simp [ih]

/-- A server answering every request with an empty page that still carries
a next cursor. -/
def emptyPageServer : Option String → Page := fun _ => ⟨[], [], NextLink.asStr "k"⟩

/-- A server answering every request with a page lacking `links.next`. -/
def absentNextServer : Option String → Page := fun _ => ⟨[], [], NextLink.absent⟩

/-- C2 (corrected).  The primary fetch loop stops exactly when no usable
next-page cursor resolves from the response or when `max_pages` iterations
have run; in particular a response lacking any `links.next` terminates the
loop after one page.  A page with no records does not stop the loop. -/
theorem fetch_stop_conditions (server : Option String → Page) (max_pages : Nat) :
    fetch_hacktivity_pageCount server max_pages
        = (if rawNext (server none).next = none then min 1 max_pages else max_pages)
  ∧ ((server none).next = NextLink.absent → 1 ≤ max_pages →
      fetch_hacktivity_pageCount server max_pages = 1) := by
  constructor
  · exact fetch_go_count server max_pages none []
  · intro h hmp
    have hc := fetch_go_count server max_pages none []
    rw [fetch_hacktivity_pageCount, hc, h]
    simp [rawNext]
    omega

/-- Witness for `fetch_stop_conditions` at a concrete server and bound. -/
theorem fetch_stop_conditions_witness :
    fetch_hacktivity_pageCount absentNextServer 5 = 1 :=
  (fetch_stop_conditions absentNextServer 5).2 rfl (by decide)

/-- Counterexample to C2 as stated: a response page with no records but
with a `links.next` cursor does not stop the loop — with `max_pages = 3`
the loop fetches 3 pages, not 1. -/
theorem fetch_empty_page_continues :
    (emptyPageServer none).data = [] ∧ fetch_hacktivity_pageCount emptyPageServer 3 = 3 := by
  exact ⟨rfl, by decide⟩

/-- Bounds delivered by the `%m` month field: a parsed month is 1..12. -/
theorem monthOfChars_bounds {l : List Char} {m : Nat} (h : monthOfChars l = some m) :
    1 ≤ m ∧ m ≤ 12 := by
  have digitLe : ∀ (c : Char) (d : Nat), charDigit c = some d → d ≤ 9 := by
    intro c d hc
    unfold charDigit at hc
    split at hc
    · simp at hc; omega
    · simp at hc
  match l with
  | [] => simp [monthOfChars] at h
  | [c] =>
    simp only [monthOfChars] at h
    cases hc : charDigit c with
    | none => rw [hc] at h; simp at h
    | some d =>
      rw [hc] at h
      dsimp only at h
      have hd : d ≤ 9 := digitLe c d hc
      by_cases h1 : 1 ≤ d
      · rw [if_pos h1] at h
        simp at h
        omega
      · rw [if_neg h1] at h
        simp at h
  | [c1, c2] =>
    simp only [monthOfChars] at h
    cases hc1 : charDigit c1 with
    | none => rw [hc1] at h; simp at h
    | some d1 =>
      cases hc2 : charDigit c2 with
      | none => rw [hc1, hc2] at h; simp at h
      | some d2 =>
        rw [hc1, hc2] at h
        dsimp only at h
        have hd2 : d2 ≤ 9 := digitLe c2 d2 hc2
        by_cases ha : d1 = 1 ∧ d2 ≤ 2
        · rw [if_pos ha] at h
          simp at h
          omega
        · rw [if_neg ha] at h
          by_cases hb : d1 = 0 ∧ 1 ≤ d2
          · rw [if_pos hb] at h
            simp at h
            omega
          · rw [if_neg hb] at h
            simp at h
  | _ :: _ :: _ :: _ => simp [monthOfChars] at h

/-- A successful `strptime("%Y-%m")` yields a positive year and a month
in 1..12. -/
theorem strptime_Ym_bounds {s : String} {y m : Nat} (h : strptime_Ym s = some (y, m)) :
    1 ≤ y ∧ 1 ≤ m ∧ m ≤ 12 := by
  unfold strptime_Ym at h
  rcases hs : s.data with _ | ⟨a, _ | ⟨b, _ | ⟨c, _ | ⟨d, _ | ⟨sep, rest⟩⟩⟩⟩⟩
  · rw [hs] at h; simp at h
  · rw [hs] at h; simp at h
  · rw [hs] at h; simp at h
  · rw [hs] at h; simp at h
  · rw [hs] at h; simp at h
  · rw [hs] at h
    dsimp only at h
    by_cases hsep : sep = '-'
    · rw [if_pos hsep] at h
      cases hy : yearOfChars [a, b, c, d] with
      | none => rw [hy] at h; dsimp only at h; simp at h
      | some y0 =>
        cases hm : monthOfChars rest with
        | none => rw [hy, hm] at h; dsimp only at h; simp at h
        | some m0 =>
          rw [hy, hm] at h
          dsimp only at h
          by_cases h1 : 1 ≤ y0
          · rw [if_pos h1] at h
            simp only [Option.some.injEq, Prod.mk.injEq] at h
            obtain ⟨hy0, hm0⟩ := h
            subst hy0; subst hm0
            exact ⟨h1, monthOfChars_bounds hm⟩
          · rw [if_neg h1] at h; simp at h
    · rw [if_neg hsep] at h; simp at h

/-- C3 (confirmed).  For every token that `strptime("%Y-%m")` accepts,
`parse_month` returns the window whose start is the 1st of that month
(midnight UTC) and whose end is the 1st of the following month, December
rolling to January of the next year; a token `strptime` rejects makes
`parse_month` fail with no window. -/
theorem parse_month_window (s : String) :
    (∀ y m, strptime_Ym s = some (y, m) →
        1 ≤ y ∧ 1 ≤ m ∧ m ≤ 12
      ∧ (m ≠ 12 → parse_month s = some (⟨y, m, 1⟩, ⟨y, m + 1, 1⟩))
      ∧ (m = 12 → parse_month s = some (⟨y, 12, 1⟩, ⟨y + 1, 1, 1⟩)))
  ∧ (strptime_Ym s = none → parse_month s = none) := by
  constructor
  · intro y m h
    obtain ⟨hy, hm1, hm2⟩ := strptime_Ym_bounds h
    refine ⟨hy, hm1, hm2, ?_, ?_⟩
    · intro hne
      unfold parse_month
      rw [h]
      simp [hne]
    · intro h12
      subst h12
      unfold parse_month
      rw [h]
      simp
  · intro h
    unfold parse_month
    rw [h]

/-- Witness for `parse_month_window` at the December token "2025-12". -/
theorem parse_month_window_witness :
    strptime_Ym "2025-12" = some (2025, 12)
  ∧ parse_month "2025-12" = some (⟨2025, 12, 1⟩, ⟨2026, 1, 1⟩) :=
  ⟨by decide, ((parse_month_window "2025-12").1 2025 12 (by decide)).2.2.2.2 rfl⟩

/-- Page 1 of the C1 scenario: record `a` (entity X inline, amount 100,
timestamp 2025-08-05) and next cursor `"c1"`. -/
def c1Page1 : Page :=
  { data := [{ id := some "a", total_awarded_amount := some 100
               total_awarded_amount_in_usd := none, awarded_amount := none
               bounty_amount := none
               latest_disclosable_activity_at := some 20250805, disclosed_at := none
               program := some ⟨none, some "X", none⟩, award := none, team := none }]
    included := []
    next := NextLink.asStr "c1" }

/-- Page 2 of the C1 scenario: record `b` (entity X inline, amount 50,
timestamp 2025-08-20) and no next cursor. -/
def c1Page2 : Page :=
  { data := [{ id := some "b", total_awarded_amount := some 50
               total_awarded_amount_in_usd := none, awarded_amount := none
               bounty_amount := none
               latest_disclosable_activity_at := some 20250820, disclosed_at := none
               program := some ⟨none, some "X", none⟩, award := none, team := none }]
    included := []
    next := NextLink.absent }

/-- The C1 server: the cursor-less request yields page 1, the request
carrying cursor `"c1"` yields page 2. -/
def c1Server : Option String → Page
  | none => c1Page1
  | some s => if s = "c1" then c1Page2 else ⟨[], [], NextLink.absent⟩

set_option maxRecDepth 100000 in
/-- C1 (code bug).  On the spec's two-page scenario the pipeline does not
produce `{X, 150, 2}`: the loop never attaches the extracted cursor to a
request, so it refetches page 1 `max_pages` times and aggregates to
`{X, 10000, 100}`.  The records the two pages actually carry would
aggregate to the spec's expected row. -/
theorem fetch_aggregate_two_page_bug :
    aggregate_by_program (fetch_hacktivity c1Server 100) = [⟨"X", 10000, 100⟩]
  ∧ aggregate_by_program (resolvePagePrimary c1Page1 ++ resolvePagePrimary c1Page2)
      = [⟨"X", 150, 2⟩]
  ∧ ([⟨"X", 10000, 100⟩] : List AggRow) ≠ [⟨"X", 150, 2⟩] := by
  refine ⟨by decide, by decide, by decide⟩

/-- The fallback loop's early-stop test, propositionally: the page resolved
some records and every one is strictly older than the window start. -/
theorem uStop_iff (st : Time) (pi : List HacktivityItem) :
    ((!pi.isEmpty) && allOlder st pi) = true
      ↔ pi ≠ [] ∧ ∀ it ∈ pi, it.disclosed_at < st := by
  simp [allOlder, List.all_eq_true, List.isEmpty_iff]

/-- Iteration count of the fallback loop: one page when the early-stop
test fires on the (always cursor-less) response or no usable next href is
present, otherwise the loop only stops at the fuel bound. -/
theorem unfiltered_go_count (st en : Time) (server : Option String → Page) :
    ∀ (fuel : Nat) (cursor : Option String) (acc : List HacktivityItem),
      (fetch_unfiltered_go st en server fuel cursor acc).2
        = if fuel = 0 then 0
          else if ((!(resolvePageU (server cursor)).isEmpty)
                      && allOlder st (resolvePageU (server cursor))) = true
                    ∨ rawNext (server cursor).next = none then 1
          else fuel
  | 0, cursor, acc => by simp [fetch_unfiltered_go]
  | fuel + 1, cursor, acc => by
    simp only [fetch_unfiltered_go]
    by_cases hstop : ((!(resolvePageU (server cursor)).isEmpty)
        && allOlder st (resolvePageU (server cursor))) = true
    · rw [if_pos hstop]
      simp [hstop]
    · rw [if_neg hstop]
      cases h : rawNext (server cursor).next with
      | none => simp [hstop, h]
      | some c =>
        have ih := unfiltered_go_count st en server fuel cursor
          (acc ++ monthFilter st en (resolvePageU (server cursor)))
        rw [h] at ih
        simp only [hstop, false_or, reduceCtorEq, or_false, if_false] at ih
        rw [ih]
        simp only [hstop, reduceCtorEq, false_or, or_false, if_false, Nat.succ_ne_zero]
        rcases fuel with _ | f <;> simp

/-- Everything the fallback loop adds to its accumulator passed the local
window-and-positivity filter. -/
theorem unfiltered_go_retention (st en : Time) (server : Option String → Page) :
    ∀ (fuel : Nat) (cursor : Option String) (acc : List HacktivityItem)
      (it : HacktivityItem),
      it ∈ (fetch_unfiltered_go st en server fuel cursor acc).1 →
      it ∈ acc ∨ (st ≤ it.disclosed_at ∧ it.disclosed_at < en ∧ 0 < it.total_awarded_amount)
  | 0, cursor, acc, it => by
    intro hmem
    exact Or.inl hmem
  | fuel + 1, cursor, acc, it => by
    intro hmem
    simp only [fetch_unfiltered_go] at hmem
    have memAcc2 : ∀ jt : HacktivityItem,
        jt ∈ acc ++ monthFilter st en (resolvePageU (server cursor)) →
        jt ∈ acc ∨ (st ≤ jt.disclosed_at ∧ jt.disclosed_at < en ∧ 0 < jt.total_awarded_amount) := by
      intro jt hjt
      rcases List.mem_append.mp hjt with hja | hjf
      · exact Or.inl hja
      · right
        simp only [monthFilter, List.mem_filter, Bool.and_eq_true, decide_eq_true_eq] at hjf
        exact ⟨hjf.2.1.1, hjf.2.1.2, hjf.2.2⟩
    split at hmem
    · exact memAcc2 it hmem
    · cases h : rawNext (server cursor).next with
      | none => rw [h] at hmem; exact memAcc2 it hmem
      | some c =>
        rw [h] at hmem
        have ih := unfiltered_go_retention st en server fuel cursor
          (acc ++ monthFilter st en (resolvePageU (server cursor))) it hmem
        rcases ih with hacc | hok
        · exact memAcc2 it hacc
        · exact Or.inr hok

/-- A server whose every response holds one record strictly older than the
window start of the C4 witness, plus a next cursor. -/
def oldPageServer : Option String → Page := fun _ =>
  { data := [{ id := some "o", total_awarded_amount := some 30
               total_awarded_amount_in_usd := none, awarded_amount := none
               bounty_amount := none
               latest_disclosable_activity_at := none, disclosed_at := some (-7)
               program := none, award := none
               team := none }]
    included := []
    next := NextLink.asStr "k" }

/-- C4 (corrected).  The unfiltered fallback runs exactly when the primary
filtered fetch returned zero records; the fallback loop stops after one
page when the page's records are non-empty and all strictly older than the
window start, or when no usable next href resolves; with neither stop it
runs the full `max_pages` (a page with no records does not stop it); and
every retained record lies in `[start, end)` with strictly positive
amount. -/
theorem unfiltered_fallback_behavior (serverF serverU : Option String → Page)
    (st en : Time) (max_pages : Nat) (hmp : 1 ≤ max_pages) :
    ((main_items serverF serverU st en max_pages).2 = true
        ↔ fetch_hacktivity serverF max_pages = [])
  ∧ (resolvePageU (serverU none) ≠ [] →
      (∀ it ∈ resolvePageU (serverU none), it.disclosed_at < st) →
      fetch_unfiltered_pageCount st en serverU max_pages = 1)
  ∧ (rawNext (serverU none).next = none →
      fetch_unfiltered_pageCount st en serverU max_pages = 1)
  ∧ (¬(resolvePageU (serverU none) ≠ [] ∧ ∀ it ∈ resolvePageU (serverU none),
        it.disclosed_at < st) →
      rawNext (serverU none).next ≠ none →
      fetch_unfiltered_pageCount st en serverU max_pages = max_pages)
  ∧ (∀ it ∈ fetch_hacktivity_unfiltered st en serverU max_pages,
      st ≤ it.disclosed_at ∧ it.disclosed_at < en ∧ 0 < it.total_awarded_amount) := by
  have hcount := unfiltered_go_count st en serverU max_pages none []
  refine ⟨?_, ?_, ?_, ?_, ?_⟩
  · unfold main_items
    by_cases hemp : (fetch_hacktivity serverF max_pages).isEmpty
    · simp [hemp, List.isEmpty_iff.mp hemp]
    · simp [hemp]
      intro hcon
      exact hemp (by simp [List.isEmpty_iff, hcon])
  · intro hne hall
    rw [fetch_unfiltered_pageCount, hcount]
    have hb : ((!(resolvePageU (serverU none)).isEmpty)
        && allOlder st (resolvePageU (serverU none))) = true :=
      (uStop_iff st _).mpr ⟨hne, hall⟩
    rw [if_neg (by omega), if_pos (Or.inl hb)]
  · intro hraw
    rw [fetch_unfiltered_pageCount, hcount]
    rw [if_neg (by omega), if_pos (Or.inr hraw)]
  · intro hno hraw
    rw [fetch_unfiltered_pageCount, hcount]
    have hb : ¬(((!(resolvePageU (serverU none)).isEmpty)
        && allOlder st (resolvePageU (serverU none))) = true) := by
      intro hcon
      exact hno ((uStop_iff st _).mp hcon)
    rw [if_neg (by omega), if_neg (by tauto)]
  · intro it hmem
    have := unfiltered_go_retention st en serverU max_pages none [] it hmem
    rcases this with hacc | hok
    · simp at hacc
    · exact hok

/-- Witness for `unfiltered_fallback_behavior`: a non-empty all-older page
stops the fallback after one of four allowed pages. -/
theorem unfiltered_fallback_behavior_witness :
    fetch_unfiltered_pageCount 0 100 oldPageServer 4 = 1 :=
  (unfiltered_fallback_behavior emptyPageServer oldPageServer 0 100 4
    (by decide)).2.1 (by decide) (by decide)

/-- Counterexample to C4 as stated: a fallback page with no records but a
next link does not terminate the loop — with `maxPages = 3` the fallback
fetches 3 pages, not 1. -/
theorem unfiltered_empty_page_continues :
    resolvePageU (emptyPageServer none) = []
  ∧ fetch_unfiltered_pageCount 0 100 emptyPageServer 3 = 3 :=
  ⟨rfl, by decide⟩

/-- A separator occurs in any list that embeds it. -/
theorem strContains_append (sep : List Char) (hsep : sep ≠ []) :
    ∀ (p r : List Char), strContains sep (p ++ (sep ++ r)) = true
  | [], r => by
    rcases hs : sep with _ | ⟨c, cs⟩
    · exact absurd hs hsep
    · rw [List.nil_append]
      show ((c :: cs).isPrefixOf (c :: (cs ++ r)) || strContains (c :: cs) (cs ++ r)) = true
      have hpre : (c :: cs).isPrefixOf ((c :: cs) ++ r) = true :=
        List.isPrefixOf_iff_prefix.mpr (List.prefix_append _ _)
      rw [List.cons_append] at hpre
      rw [hpre]
      rfl
  | a :: p, r => by
    rw [List.cons_append]
    show (sep.isPrefixOf (a :: (p ++ (sep ++ r))) || strContains sep (p ++ (sep ++ r))) = true
    rw [strContains_append sep hsep p r]
    exact Bool.or_true _

/-- When the separator occurs nowhere before the embedded copy, the suffix
after the first occurrence is exactly the remainder. -/
theorem afterFirst_boundary (sep t : List Char) (hsep : sep ≠ []) :
    ∀ p, (∀ i, i < p.length → sep.isPrefixOf ((p ++ (sep ++ t)).drop i) = false) →
      afterFirst sep (p ++ (sep ++ t)) = t
  | [], _ => by
    rcases hs : sep with _ | ⟨c, cs⟩
    · exact absurd hs hsep
    · rw [List.nil_append]
      show (if (c :: cs).isPrefixOf (c :: (cs ++ t)) then (c :: (cs ++ t)).drop (c :: cs).length
            else afterFirst (c :: cs) (cs ++ t)) = t
      have hpre : (c :: cs).isPrefixOf ((c :: cs) ++ t) = true :=
        List.isPrefixOf_iff_prefix.mpr (List.prefix_append _ _)
      rw [List.cons_append] at hpre
      rw [if_pos hpre, ← List.cons_append, List.drop_left]
  | a :: p, h => by
    rw [List.cons_append]
    have h0 := h 0 (Nat.succ_pos _)
    rw [List.drop_zero, List.cons_append] at h0
    show (if sep.isPrefixOf (a :: (p ++ (sep ++ t))) then (a :: (p ++ (sep ++ t))).drop sep.length
          else afterFirst sep (p ++ (sep ++ t))) = t
    rw [if_neg (by rw [h0]; exact Bool.false_ne_true)]
    refine afterFirst_boundary sep t hsep p ?_
    intro i hi
    have := h (i + 1) (Nat.succ_lt_succ hi)
    rw [List.cons_append, List.drop_succ_cons] at this
    exact this

/-- C6 (corrected, amended).  The token extracted from a full-URL
next-page link is the entire suffix after the first `page[cursor]=`; when
the cursor parameter is the URL's final query parameter (the suffix is the
bare token and contains no further marker), that equals the bare token and
the resolved cursor is the same as when the link carries the bare token
directly. -/
theorem cursor_unwrap_token (p t : String)
    (ht : t.data ≠ [])
    (htc : strContains cursorKey t.data = false)
    (hp : ∀ i, i < p.data.length →
      cursorKey.isPrefixOf ((p.data ++ (cursorKey ++ t.data)).drop i) = false) :
    resolvedNext (NextLink.asStr (String.mk (p.data ++ (cursorKey ++ t.data)))) = some t
  ∧ resolvedNext (NextLink.asStr t) = some t := by
  have hkey : cursorKey ≠ [] := by decide
  constructor
  · have hlne : p.data ++ (cursorKey ++ t.data) ≠ [] := by
      simp [List.append_eq_nil]
      intro _ hcon _
      exact hkey hcon
    have hsne : String.mk (p.data ++ (cursorKey ++ t.data)) ≠ "" := by
      intro hcon
      exact hlne (congrArg String.data hcon)
    simp only [resolvedNext, rawNext, strTruthy]
    rw [if_neg hsne]
    have hdata : (String.mk (p.data ++ (cursorKey ++ t.data))).data
        = p.data ++ (cursorKey ++ t.data) := rfl
    simp only [Option.map_some', unwrapCursor, hdata]
    rw [if_pos (strContains_append cursorKey hkey p.data t.data)]
    rw [afterFirst_boundary cursorKey t.data hkey p.data hp]
  · have htne : t ≠ "" := by
      intro hcon
      exact ht (congrArg String.data hcon)
    simp only [resolvedNext, rawNext, strTruthy]
    rw [if_neg htne]
    simp only [Option.map_some', unwrapCursor]
    rw [if_neg (by rw [htc]; exact Bool.false_ne_true)]

/-- Witness for `cursor_unwrap_token` at a concrete URL and token. -/
theorem cursor_unwrap_token_witness :
    resolvedNext (NextLink.asStr
        (String.mk ("https://api.example/h?a=1&".data ++ (cursorKey ++ "tok99".data))))
      = some "tok99"
  ∧ resolvedNext (NextLink.asStr "tok99") = some "tok99" :=
  cursor_unwrap_token "https://api.example/h?a=1&" "tok99" (by decide) (by decide) (by decide)

/-- C7 (confirmed).  Entity-name resolution tries the inline relationship
attribute first, then the included-index lookup reading name/handle, then
the sentinel; a node resolvable only through the included index yields the
same name as one with the name inline. -/
theorem program_resolution_order
    (included : List Included) (n1 n2 n3 : Node) (pd1 pd2 : RelData)
    (inc : Included) (nm : String) (hnm : nm ≠ "")
    (h1 : n1.program = some pd1) (h1n : pd1.name = some nm)
    (h2 : n2.program = some pd2) (h2n : strOr pd2.name pd2.handle = none)
    (h2l : lookupIncluded included pd2.id = some inc)
    (h2i : strOr inc.name inc.handle = some nm)
    (h3 : n3.program = none) :
    resolveProgram included n1 = some nm
  ∧ resolveProgram included n2 = some nm
  ∧ (resolveProgram included n3).getD "Unknown Program" = "Unknown Program" := by
  refine ⟨?_, ?_, ?_⟩
  · have hpd1 : strOr pd1.name pd1.handle = some nm := by
      unfold strOr strTruthy
      rw [h1n]
      dsimp only
      rw [if_neg hnm]
    simp only [resolveProgram, h1, hpd1]
  · simp only [resolveProgram, h2, h2n, h2l, h2i]
  · simp only [resolveProgram, h3, Option.getD_none]

/-- The inline node, pointer node, included entry and nameless node of the
C7 witness. -/
def inlineNode : Node :=
  { id := some "n1", total_awarded_amount := none, total_awarded_amount_in_usd := none
    awarded_amount := none, bounty_amount := none
    latest_disclosable_activity_at := some 1, disclosed_at := none
    program := some ⟨some "pid", some "ProgName", none⟩, award := none, team := none }

/-- Pointer-only node of the C7 witness. -/
def ptrNode : Node :=
  { id := some "n2", total_awarded_amount := none, total_awarded_amount_in_usd := none
    awarded_amount := none, bounty_amount := none
    latest_disclosable_activity_at := some 1, disclosed_at := none
    program := some ⟨some "pid", none, none⟩, award := none, team := none }

/-- Node with no program relationship, for the C7 witness. -/
def noProgNode : Node :=
  { id := some "n3", total_awarded_amount := none, total_awarded_amount_in_usd := none
    awarded_amount := none, bounty_amount := none
    latest_disclosable_activity_at := some 1, disclosed_at := none
    program := none, award := none, team := none }

/-- Included resource carrying the program name, for the C7 witness. -/
def incEntry : Included := ⟨some "pid", some "ProgName", none, none, none⟩

/-- Witness for `program_resolution_order` at concrete nodes. -/
theorem program_resolution_order_witness :
    resolveProgram [incEntry] inlineNode = some "ProgName"
  ∧ resolveProgram [incEntry] ptrNode = some "ProgName"
  ∧ (resolveProgram [incEntry] noProgNode).getD "Unknown Program" = "Unknown Program" :=
  program_resolution_order [incEntry] inlineNode ptrNode noProgNode
    ⟨some "pid", some "ProgName", none⟩ ⟨some "pid", none, none⟩ incEntry "ProgName"
    (by decide) rfl rfl rfl (by decide) (by decide) (by decide) rfl

/-- C10 (confirmed).  An inline amount attribute equal to 0 is falsy, so
it is indistinguishable from an absent attribute: resolution falls through
to the award-relationship lookup, and only when that also yields nothing
truthy does the record get amount 0.  The unfiltered resolver behaves the
same on its inline chain. -/
theorem zero_amount_fallthrough (included : List Included) (nd : Node) :
    resolveAmount included { nd with total_awarded_amount := some 0 }
        = resolveAmount included { nd with total_awarded_amount := none }
  ∧ resolveAmount included { nd with total_awarded_amount_in_usd := some 0 }
        = resolveAmount included { nd with total_awarded_amount_in_usd := none }
  ∧ resolveAmount included { nd with awarded_amount := some 0 }
        = resolveAmount included { nd with awarded_amount := none }
  ∧ resolveAmount included { nd with bounty_amount := some 0 }
        = resolveAmount included { nd with bounty_amount := none }
  ∧ (inlineAmount nd = none →
      resolveAmount included nd = (awardAmount included nd).getD 0)
  ∧ (inlineAmount nd = none → awardAmount included nd = none →
      resolveAmount included nd = 0)
  ∧ resolveAmountU { nd with total_awarded_amount := some 0 }
        = resolveAmountU { nd with total_awarded_amount := none } := by
  refine ⟨rfl, rfl, rfl, rfl, ?_, ?_, rfl⟩
  · intro h
    unfold resolveAmount
    rw [h]
  · intro h h2
    unfold resolveAmount
    rw [h, h2]
    rfl

/-- Node whose only amount attribute is an explicit inline 0 and whose
award relationship resolves to nothing, for the C10 witness. -/
def zeroNode : Node :=
  { id := some "z", total_awarded_amount := some 0, total_awarded_amount_in_usd := none
    awarded_amount := none, bounty_amount := none
    latest_disclosable_activity_at := some 3, disclosed_at := some 3
    program := none, award := none, team := none }

/-- Witness for `zero_amount_fallthrough`: the all-falsy node resolves to
amount 0. -/
theorem zero_amount_fallthrough_witness :
    resolveAmount [] zeroNode = 0 :=
  (zero_amount_fallthrough [] zeroNode).2.2.2.2.2.1 (by decide) (by decide)

/-- Code-point comparison is irreflexive. -/
theorem charsLtb_irrefl : ∀ l : List Char, charsLtb l l = false
  | [] => rfl
  | a :: as => by
    show (if a < a then true else if a < a then false else charsLtb as as) = false
    rw [if_neg (lt_irrefl a), if_neg (lt_irrefl a)]
    exact charsLtb_irrefl as

/-- Code-point comparison is transitive. -/
theorem charsLtb_trans : ∀ {a b c : List Char},
    charsLtb a b = true → charsLtb b c = true → charsLtb a c = true
  | [], [], _, h1, _ => by simp [charsLtb] at h1
  | [], _ :: _, [], _, h2 => by simp [charsLtb] at h2
  | [], _ :: _, _ :: _, _, _ => by simp [charsLtb]
  | _ :: _, [], _, h1, _ => by simp [charsLtb] at h1
  | _ :: _, _ :: _, [], _, h2 => by simp [charsLtb] at h2
  | x :: xs, y :: ys, z :: zs, h1, h2 => by
    simp only [charsLtb] at h1 h2 ⊢
    by_cases hxy : x < y
    · by_cases hyz : y < z
      · rw [if_pos (lt_trans hxy hyz)]
      · by_cases hzy : z < y
        · rw [if_neg hyz, if_pos hzy] at h2
          exact absurd h2 Bool.false_ne_true
        · have heq : y = z := le_antisymm (le_of_not_lt hzy) (le_of_not_lt hyz)
          subst heq
          rw [if_pos hxy]
    · by_cases hyx : y < x
      · rw [if_neg hxy, if_pos hyx] at h1
        exact absurd h1 Bool.false_ne_true
      · have heq : x = y := le_antisymm (le_of_not_lt hyx) (le_of_not_lt hxy)
        subst heq
        rw [if_neg (lt_irrefl x), if_neg (lt_irrefl x)] at h1
        by_cases hxz : x < z
        · rw [if_pos hxz]
        · by_cases hzx : z < x
          · rw [if_neg hxz, if_pos hzx] at h2
            exact absurd h2 Bool.false_ne_true
          · rw [if_neg hxz, if_neg hzx] at h2 ⊢
            exact charsLtb_trans h1 h2

/-- Two lists neither of which precedes the other are equal. -/
theorem charsLtb_asymm_eq : ∀ {a b : List Char},
    charsLtb a b = false → charsLtb b a = false → a = b
  | [], [], _, _ => rfl
  | [], _ :: _, h1, _ => by simp [charsLtb] at h1
  | _ :: _, [], _, h2 => by simp [charsLtb] at h2
  | x :: xs, y :: ys, h1, h2 => by
    simp only [charsLtb] at h1 h2
    by_cases hxy : x < y
    · rw [if_pos hxy] at h1
      exact Bool.noConfusion h1
    · by_cases hyx : y < x
      · rw [if_pos hyx] at h2
        exact Bool.noConfusion h2
      · have heq : x = y := le_antisymm (le_of_not_lt hyx) (le_of_not_lt hxy)
        subst heq
        rw [if_neg (lt_irrefl x), if_neg (lt_irrefl x)] at h1 h2
        rw [charsLtb_asymm_eq h1 h2]

/-- String comparison is transitive. -/
theorem strLtb_trans {a b c : String} (h1 : strLtb a b = true) (h2 : strLtb b c = true) :
    strLtb a c = true := charsLtb_trans h1 h2

/-- Strings neither of which precedes the other are equal. -/
theorem strLtb_asymm_eq {a b : String} (h1 : strLtb a b = false) (h2 : strLtb b a = false) :
    a = b := by
  have hd : a.data = b.data := charsLtb_asymm_eq h1 h2
  have hmk : String.mk a.data = String.mk b.data := by rw [hd]
  exact hmk

/-- String comparison is irreflexive. -/
theorem strLtb_irrefl (a : String) : strLtb a a = false := charsLtb_irrefl a.data

/-- Totality: distinct strings compare strictly one way. -/
theorem strLtb_total_of_ne {a b : String} (h1 : strLtb a b = false) (hne : a ≠ b) :
    strLtb b a = true := by
  cases hba : strLtb b a with
  | false => exact absurd (strLtb_asymm_eq h1 hba) hne
  | true => rfl

/-- Membership through sorted-set insertion of a group key. -/
theorem mem_insertName (a n : String) : ∀ l : List String, a ∈ insertName n l ↔ a = n ∨ a ∈ l
  | [] => by simp [insertName]
  | x :: xs => by
    simp only [insertName]
    by_cases h1 : strLtb n x = true
    · rw [if_pos h1]
      simp [List.mem_cons]
    · rw [if_neg h1]
      by_cases h2 : n = x
      · rw [if_pos h2]
        subst h2
        simp [List.mem_cons]
      · rw [if_neg h2]
        simp only [List.mem_cons, mem_insertName a n xs]
        tauto

/-- Sorted-set insertion preserves strict ascending order of keys. -/
theorem pairwise_insertName (n : String) :
    ∀ l : List String, l.Pairwise (fun x y => strLtb x y = true) →
      (insertName n l).Pairwise (fun x y => strLtb x y = true)
  | [], _ => by simp [insertName]
  | x :: xs, hp => by
    rcases List.pairwise_cons.mp hp with ⟨hx, hxs⟩
    simp only [insertName]
    by_cases h1 : strLtb n x = true
    · rw [if_pos h1]
      refine List.pairwise_cons.mpr ⟨?_, hp⟩
      intro y hy
      rcases List.mem_cons.mp hy with rfl | hyx
      · exact h1
      · exact strLtb_trans h1 (hx y hyx)
    · rw [if_neg h1]
      by_cases h2 : n = x
      · rw [if_pos h2]
        exact hp
      · rw [if_neg h2]
        refine List.pairwise_cons.mpr ⟨?_, pairwise_insertName n xs hxs⟩
        intro y hy
        rcases (mem_insertName y n xs).mp hy with rfl | hyx
        · exact strLtb_total_of_ne (Bool.eq_false_iff.mpr h1) h2
        · exact hx y hyx

/-- Folding key insertions keeps the key list strictly ascending. -/
theorem pairwise_groupKeys_aux :
    ∀ (its : List HacktivityItem) (acc : List String),
      acc.Pairwise (fun x y => strLtb x y = true) →
      (its.foldl (fun a it => insertName it.program a) acc).Pairwise
        (fun x y => strLtb x y = true)
  | [], _, h => h
  | it :: its, acc, h =>
    pairwise_groupKeys_aux its (insertName it.program acc) (pairwise_insertName it.program acc h)

/-- The group-key list of an aggregation is strictly ascending. -/
theorem pairwise_groupKeys (items : List HacktivityItem) :
    (groupKeys items).Pairwise (fun x y => strLtb x y = true) :=
  pairwise_groupKeys_aux (posItems items) [] (List.Pairwise.nil)

/-- Membership in the folded key list. -/
theorem mem_groupKeys_aux (p : String) :
    ∀ (its : List HacktivityItem) (acc : List String),
      p ∈ its.foldl (fun a it => insertName it.program a) acc
        ↔ p ∈ acc ∨ ∃ it ∈ its, it.program = p
  | [], acc => by simp
  | it :: its, acc => by
    simp only [List.foldl_cons]
    rw [mem_groupKeys_aux p its (insertName it.program acc)]
    rw [mem_insertName p it.program acc]
    simp only [List.mem_cons]
    constructor
    · rintro ((rfl | ha) | ⟨jt, hjt, hjp⟩)
      · exact Or.inr ⟨it, Or.inl rfl, rfl⟩
      · exact Or.inl ha
      · exact Or.inr ⟨jt, Or.inr hjt, hjp⟩
    · rintro (ha | ⟨jt, (rfl | hjt), hjp⟩)
      · exact Or.inl (Or.inr ha)
      · exact Or.inl (Or.inl hjp.symm)
      · exact Or.inr ⟨jt, hjt, hjp⟩

/-- A name is a group key exactly when some positive-amount record bears it. -/
theorem mem_groupKeys (p : String) (items : List HacktivityItem) :
    p ∈ groupKeys items ↔ ∃ it ∈ posItems items, it.program = p := by
  rw [groupKeys, mem_groupKeys_aux p (posItems items) []]
  simp

/-- The sort key test, propositionally. -/
theorem rowLtb_iff (a b : AggRow) :
    rowLtb a b = true ↔ (b.total_bounty_usd < a.total_bounty_usd
      ∨ (a.total_bounty_usd = b.total_bounty_usd ∧ b.report_count < a.report_count)) := by
  simp [rowLtb, Bool.or_eq_true, Bool.and_eq_true, decide_eq_true_eq]

/-- A strictly-preceding sort key gives the emission order. -/
theorem rowOrder_of_rowLtb {a b : AggRow} (h : rowLtb a b = true) : rowOrder a b := by
  rcases (rowLtb_iff a b).mp h with h | h
  · exact Or.inl h
  · exact Or.inr (Or.inl h)

/-- A row whose key does not strictly precede an alphabetically earlier row
follows it in emission order. -/
theorem rowOrder_of_not_rowLtb {r x : AggRow} (h : rowLtb r x = false)
    (hn : strLtb x.program r.program = true) : rowOrder x r := by
  have hn1 : ¬(x.total_bounty_usd < r.total_bounty_usd) := by
    intro hc
    have := (rowLtb_iff r x).mpr (Or.inl hc)
    rw [h] at this
    exact Bool.noConfusion this
  have hn2 : ¬(r.total_bounty_usd = x.total_bounty_usd ∧ x.report_count < r.report_count) := by
    intro hc
    have := (rowLtb_iff r x).mpr (Or.inr hc)
    rw [h] at this
    exact Bool.noConfusion this
  rcases lt_trichotomy r.total_bounty_usd x.total_bounty_usd with ht | ht | ht
  · exact Or.inl ht
  · by_cases hcnt : r.report_count < x.report_count
    · exact Or.inr (Or.inl ⟨ht.symm, hcnt⟩)
    · have hxr : ¬(x.report_count < r.report_count) := fun hc => hn2 ⟨ht, hc⟩
      have hce : x.report_count = r.report_count := by omega
      exact Or.inr (Or.inr ⟨ht.symm, hce, hn⟩)
  · exact absurd ht hn1

/-- Emission order is transitive. -/
theorem rowOrder_trans {a b c : AggRow} (h1 : rowOrder a b) (h2 : rowOrder b c) :
    rowOrder a c := by
  rcases h1 with h1 | ⟨e1, h1⟩ | ⟨e1, f1, g1⟩ <;>
    rcases h2 with h2 | ⟨e2, h2⟩ | ⟨e2, f2, g2⟩
  · exact Or.inl (lt_trans h2 h1)
  · exact Or.inl (by omega)
  · exact Or.inl (by omega)
  · exact Or.inl (by omega)
  · exact Or.inr (Or.inl ⟨by omega, by omega⟩)
  · exact Or.inr (Or.inl ⟨by omega, by omega⟩)
  · exact Or.inl (by omega)
  · exact Or.inr (Or.inl ⟨by omega, by omega⟩)
  · exact Or.inr (Or.inr ⟨by omega, by omega, strLtb_trans g1 g2⟩)

/-- Membership through stable row insertion. -/
theorem mem_insertRow (a r : AggRow) : ∀ l : List AggRow, a ∈ insertRow r l ↔ a = r ∨ a ∈ l
  | [] => by simp [insertRow]
  | x :: xs => by
    simp only [insertRow]
    by_cases h : rowLtb r x = true
    · rw [if_pos h]
      simp [List.mem_cons]
    · rw [if_neg h]
      simp only [List.mem_cons, mem_insertRow a r xs]
      tauto

/-- Inserting a row alphabetically after everything already placed keeps
the emission order. -/
theorem pairwise_insertRow (r : AggRow) :
    ∀ l : List AggRow, l.Pairwise rowOrder →
      (∀ x ∈ l, strLtb x.program r.program = true) →
      (insertRow r l).Pairwise rowOrder
  | [], _, _ => by simp [insertRow]
  | x :: xs, hp, hname => by
    rcases List.pairwise_cons.mp hp with ⟨hx, hxs⟩
    simp only [insertRow]
    by_cases h : rowLtb r x = true
    · rw [if_pos h]
      refine List.pairwise_cons.mpr ⟨?_, hp⟩
      intro y hy
      rcases List.mem_cons.mp hy with rfl | hyx
      · exact rowOrder_of_rowLtb h
      · exact rowOrder_trans (rowOrder_of_rowLtb h) (hx y hyx)
    · rw [if_neg h]
      refine List.pairwise_cons.mpr
        ⟨?_, pairwise_insertRow r xs hxs (fun y hy => hname y (List.mem_cons_of_mem x hy))⟩
      intro y hy
      rcases (mem_insertRow y r xs).mp hy with rfl | hyx
      · exact rowOrder_of_not_rowLtb (Bool.eq_false_iff.mpr h) (hname x (List.mem_cons_self x xs))
      · exact hx y hyx

/-- Stable insertion permutes to plain cons. -/
theorem perm_insertRow (r : AggRow) : ∀ l : List AggRow, List.Perm (insertRow r l) (r :: l)
  | [] => List.Perm.refl _
  | x :: xs => by
    simp only [insertRow]
    by_cases h : rowLtb r x = true
    · rw [if_pos h]
    · rw [if_neg h]
      exact (List.Perm.cons x (perm_insertRow r xs)).trans (List.Perm.swap r x xs)

/-- The final sort permutes its input. -/
theorem sortRows_perm : ∀ (rows acc : List AggRow),
    List.Perm (rows.foldl (fun a r => insertRow r a) acc) (acc ++ rows)
  | [], acc => by simp
  | r :: rest, acc => by
    simp only [List.foldl_cons]
    refine (sortRows_perm rest (insertRow r acc)).trans ?_
    refine (List.Perm.append_right rest (perm_insertRow r acc)).trans ?_
    exact List.perm_middle.symm

/-- Folding stable insertions over alphabetically ascending rows emits the
combined descending-total, descending-count, ascending-name order. -/
theorem sortRows_pairwise : ∀ (rows acc : List AggRow),
    acc.Pairwise rowOrder →
    rows.Pairwise (fun a b => strLtb a.program b.program = true) →
    (∀ x ∈ acc, ∀ y ∈ rows, strLtb x.program y.program = true) →
    (rows.foldl (fun a r => insertRow r a) acc).Pairwise rowOrder
  | [], _, hacc, _, _ => hacc
  | r :: rest, acc, hacc, hrows, hcross => by
    simp only [List.foldl_cons]
    rcases List.pairwise_cons.mp hrows with ⟨hr, hrest⟩
    refine sortRows_pairwise rest (insertRow r acc) ?_ hrest ?_
    · exact pairwise_insertRow r acc hacc (fun x hx => hcross x hx r (List.mem_cons_self r rest))
    · intro x hx y hy
      rcases (mem_insertRow x r acc).mp hx with rfl | hxa
      · exact hr y hy
      · exact hcross x hxa y (List.mem_cons_of_mem r hy)

/-- C5 (corrected).  The rows of `aggregate_by_program` are emitted in
strictly descending `total_bounty_usd`, ties broken by strictly descending
`report_count`, and remaining ties in ascending program-name order — a
total, input-order-independent order, so identical inputs give identical
output order. -/
theorem aggregate_order (items : List HacktivityItem) :
    (aggregate_by_program items).Pairwise rowOrder := by
  unfold aggregate_by_program sortRows
  refine sortRows_pairwise _ [] List.Pairwise.nil ?_ (by intro x hx; simp at hx)
  rw [List.pairwise_map]
  exact pairwise_groupKeys items

/-- Counterexample to C5 as stated: two groups tied on total and count are
emitted alphabetically, not in encounter order (here `bbb` was encountered
first but `aaa` is emitted first). -/
theorem aggregate_tie_alphabetical :
    aggregate_by_program [⟨"1", "bbb", 10, 0⟩, ⟨"2", "aaa", 10, 0⟩]
        = [⟨"aaa", 10, 1⟩, ⟨"bbb", 10, 1⟩]
  ∧ ([⟨"aaa", 10, 1⟩, ⟨"bbb", 10, 1⟩] : List AggRow)
        ≠ [⟨"bbb", 10, 1⟩, ⟨"aaa", 10, 1⟩] :=
  ⟨by decide, by decide⟩

/-- C8 (confirmed).  Every emitted row's total is the sum of the amounts
of its program's strictly-positive records and its count their number;
such a group is never empty (so an amount-0 record yields no row, not even
a zero-amount group); program names are unique across rows; and the empty
input aggregates to the empty result. -/
theorem aggregate_row_invariants (items : List HacktivityItem) (r : AggRow)
    (hr : r ∈ aggregate_by_program items) :
    r.total_bounty_usd
        = ((contributors items r.program).map (fun it => it.total_awarded_amount)).sum
  ∧ r.report_count = (contributors items r.program).length
  ∧ contributors items r.program ≠ []
  ∧ (∀ it ∈ contributors items r.program, 0 < it.total_awarded_amount)
  ∧ ((aggregate_by_program items).map (fun row => row.program)).Nodup
  ∧ aggregate_by_program [] = ([] : List AggRow) := by
  have hperm : List.Perm (aggregate_by_program items)
      ((groupKeys items).map (mkRow items)) := by
    unfold aggregate_by_program sortRows
    exact sortRows_perm ((groupKeys items).map (mkRow items)) []
  have hmem : r ∈ (groupKeys items).map (mkRow items) := hperm.mem_iff.mp hr
  obtain ⟨p, hp, hrp⟩ := List.mem_map.mp hmem
  subst hrp
  obtain ⟨it0, hit0, hit0p⟩ := (mem_groupKeys p items).mp hp
  refine ⟨rfl, rfl, ?_, ?_, ?_, rfl⟩
  · have hin : it0 ∈ contributors items p := by
      unfold contributors
      exact List.mem_filter.mpr ⟨hit0, by simp [hit0p]⟩
    exact List.ne_nil_of_mem hin
  · intro it hit
    have hpos : it ∈ posItems items := List.mem_filter.mp hit |>.1
    have := List.mem_filter.mp hpos
    simpa using this.2
  · have hkeysnd : (groupKeys items).Nodup := by
      refine (pairwise_groupKeys items).imp ?_
      intro a b hab hcon
      subst hcon
      rw [strLtb_irrefl] at hab
      exact Bool.noConfusion hab
    have hmapeq : ((groupKeys items).map (mkRow items)).map (fun row => row.program)
        = groupKeys items := by
      rw [List.map_map]
      exact List.map_id (groupKeys items)
    have := hperm.map (fun row => row.program)
    rw [hmapeq] at this
    exact this.nodup_iff.mpr hkeysnd

/-- Witness for `aggregate_row_invariants` at a one-record input. -/
theorem aggregate_row_invariants_witness :
    (⟨"X", 100, 1⟩ : AggRow) ∈ aggregate_by_program [⟨"r1", "X", 100, 5⟩]
  ∧ contributors [⟨"r1", "X", 100, 5⟩] (AggRow.mk "X" 100 1).program ≠ [] :=
  ⟨by decide,
   (aggregate_row_invariants [⟨"r1", "X", 100, 5⟩] ⟨"X", 100, 1⟩ (by decide)).2.2.1⟩

/-- A present (truthy) timestamp attribute value as the source sees it:
an ISO string `datetime.fromisoformat` parses to the instant `t`, or a
truthy string it raises `ValueError` on. -/
inductive TsAttr where
  | iso (t : Time)
  | malformed (s : String)
deriving DecidableEq

/-- Model of `datetime.fromisoformat(str(v).replace("Z", "+00:00"))`: the
parsed instant, or the `ValueError` carrying the offending string. -/
def fromisoformat : TsAttr → Except String Time
  | TsAttr.iso t => Except.ok t
  | TsAttr.malformed s => Except.error s

/-- A page node with its timestamp attributes kept raw (`none` is an
absent or falsy attribute, `some` a truthy string that may or may not
parse).  All other fields are as in `Node`. -/
structure NodeE where
  id : Option String
  total_awarded_amount : Option Int
  total_awarded_amount_in_usd : Option Int
  awarded_amount : Option Int
  bounty_amount : Option Int
  latest_disclosable_activity_at : Option TsAttr
  disclosed_at : Option TsAttr
  program : Option RelData
  award : Option RelData
  team : Option RelData
deriving DecidableEq

/-- Erasure of a raw timestamp attribute to its parsed instant
(meaningful under `tsOk`; a malformed attribute erases to `none`). -/
def eraseTs : Option TsAttr → Option Time
  | none => none
  | some (TsAttr.iso t) => some t
  | some (TsAttr.malformed _) => none

/-- The timestamp attribute does not make `fromisoformat` raise. -/
def tsOk : Option TsAttr → Bool
  | some (TsAttr.malformed _) => false
  | _ => true

/-- Well-formed erasure of a raw node to the parsed-timestamp `Node` the
total resolvers consume. -/
def NodeE.toNode (node : NodeE) : Node :=
  { id := node.id
    total_awarded_amount := node.total_awarded_amount
    total_awarded_amount_in_usd := node.total_awarded_amount_in_usd
    awarded_amount := node.awarded_amount
    bounty_amount := node.bounty_amount
    latest_disclosable_activity_at := eraseTs node.latest_disclosable_activity_at
    disclosed_at := eraseTs node.disclosed_at
    program := node.program
    award := node.award
    team := node.team }

/-- Fallible per-node extraction of `fetch_hacktivity` (source lines
142-190 including the `ValueError` of `fromisoformat` at line 181): a
falsy timestamp skips the node, an unparseable one raises, a parseable
one yields the item. -/
def resolveNodePrimaryE (included : List Included) (node : NodeE) :
    Except String (Option HacktivityItem) :=
  match node.latest_disclosable_activity_at with
  | none => Except.ok none
  | some v =>
    match fromisoformat v with
    | Except.error e => Except.error e
    | Except.ok t =>
      Except.ok (some
        { id := node.id.getD ""
          program := (resolveProgram included (NodeE.toNode node)).getD "Unknown Program"
          total_awarded_amount := resolveAmount included (NodeE.toNode node)
          disclosed_at := t })

/-- Fallible per-node extraction of `fetch_hacktivity_unfiltered` (source
lines 236-264 including the `ValueError` of `fromisoformat` at line 256). -/
def resolveNodeUE (included : List Included) (node : NodeE) :
    Except String (Option HacktivityItem) :=
  match node.disclosed_at with
  | none => Except.ok none
  | some v =>
    match fromisoformat v with
    | Except.error e => Except.error e
    | Except.ok t =>
      Except.ok (some
        { id := node.id.getD ""
          program := (resolveProgramU included (NodeE.toNode node)).getD "Unknown Program"
          total_awarded_amount := resolveAmountU (NodeE.toNode node)
          disclosed_at := t })

/-- The source's per-page extraction loop over a fallible per-node step:
a raised `ValueError` aborts the whole extraction (there is no per-node
handler), a skipped node contributes nothing, otherwise items accumulate
in order. -/
def extractNodes (f : NodeE → Except String (Option HacktivityItem)) :
    List NodeE → Except String (List HacktivityItem)
  | [] => Except.ok []
  | n :: rest =>
    match f n with
    | Except.error e => Except.error e
    | Except.ok none => extractNodes f rest
    | Except.ok (some it) =>
      match extractNodes f rest with
      | Except.error e => Except.error e
      | Except.ok its => Except.ok (it :: its)

/-- All items one raw page contributes in `fetch_hacktivity`, or the
propagated `ValueError`. -/
def resolvePagePrimaryE (included : List Included) (nodes : List NodeE) :
    Except String (List HacktivityItem) :=
  extractNodes (resolveNodePrimaryE included) nodes

/-- All items one raw page contributes in `fetch_hacktivity_unfiltered`,
or the propagated `ValueError`. -/
def resolvePageUE (included : List Included) (nodes : List NodeE) :
    Except String (List HacktivityItem) :=
  extractNodes (resolveNodeUE included) nodes

/-- A node the per-node step skips leaves page extraction unchanged. -/
theorem extractNodes_skip (f : NodeE → Except String (Option HacktivityItem))
    (bad : NodeE) (hf : f bad = Except.ok none) :
    ∀ (pre post : List NodeE),
      extractNodes f (pre ++ bad :: post) = extractNodes f (pre ++ post)
  | [], post => by
    rw [List.nil_append, List.nil_append]
    show (match f bad with
          | Except.error e => Except.error e
          | Except.ok none => extractNodes f post
          | Except.ok (some it) =>
            match extractNodes f post with
            | Except.error e => Except.error e
            | Except.ok its => Except.ok (it :: its)) = extractNodes f post
    rw [hf]
  | n :: pre, post => by
    rw [List.cons_append, List.cons_append]
    show (match f n with
          | Except.error e => Except.error e
          | Except.ok none => extractNodes f (pre ++ bad :: post)
          | Except.ok (some it) =>
            match extractNodes f (pre ++ bad :: post) with
            | Except.error e => Except.error e
            | Except.ok its => Except.ok (it :: its)) = _
    rw [extractNodes_skip f bad hf pre post]
    rfl

/-- A node the per-node step raises on aborts page extraction with that
error, provided the nodes before it do not raise first. -/
theorem extractNodes_abort (f : NodeE → Except String (Option HacktivityItem))
    (mal : NodeE) (s : String) (hf : f mal = Except.error s) :
    ∀ (pre post : List NodeE), (∀ n ∈ pre, ∃ v, f n = Except.ok v) →
      extractNodes f (pre ++ mal :: post) = Except.error s
  | [], post, _ => by
    rw [List.nil_append]
    show (match f mal with
          | Except.error e => Except.error e
          | Except.ok none => extractNodes f post
          | Except.ok (some it) =>
            match extractNodes f post with
            | Except.error e => Except.error e
            | Except.ok its => Except.ok (it :: its)) = Except.error s
    rw [hf]
  | n :: pre, post, hok => by
    rw [List.cons_append]
    obtain ⟨v, hv⟩ := hok n (List.mem_cons_self n pre)
    have ih := extractNodes_abort f mal s hf pre post
      (fun m hm => hok m (List.mem_cons_of_mem n hm))
    show (match f n with
          | Except.error e => Except.error e
          | Except.ok none => extractNodes f (pre ++ mal :: post)
          | Except.ok (some it) =>
            match extractNodes f (pre ++ mal :: post) with
            | Except.error e => Except.error e
            | Except.ok its => Except.ok (it :: its)) = Except.error s
    rw [hv, ih]
    cases v with
    | none => rfl
    | some it => rfl

/-- Page extraction over nodes the per-node step never raises on agrees
with the pure filter-map of the per-node results. -/
theorem extractNodes_refines (f : NodeE → Except String (Option HacktivityItem))
    (g : NodeE → Option HacktivityItem) :
    ∀ nodes : List NodeE, (∀ n ∈ nodes, f n = Except.ok (g n)) →
      extractNodes f nodes = Except.ok (nodes.filterMap g)
  | [], _ => rfl
  | n :: rest, h => by
    have hn := h n (List.mem_cons_self n rest)
    have ih := extractNodes_refines f g rest (fun m hm => h m (List.mem_cons_of_mem n hm))
    show (match f n with
          | Except.error e => Except.error e
          | Except.ok none => extractNodes f rest
          | Except.ok (some it) =>
            match extractNodes f rest with
            | Except.error e => Except.error e
            | Except.ok its => Except.ok (it :: its)) = Except.ok ((n :: rest).filterMap g)
    rw [hn, ih, List.filterMap_cons]
    cases g n with
    | none => rfl
    | some it => rfl

/-- On a node whose timestamp attribute parses (or is absent), the
fallible primary step returns exactly what the total resolver produces on
the erased node. -/
theorem resolveNodePrimaryE_agrees {included : List Included} {n : NodeE}
    (h : tsOk n.latest_disclosable_activity_at = true) :
    resolveNodePrimaryE included n
      = Except.ok (resolveNodePrimary included (NodeE.toNode n)) := by
  cases hv : n.latest_disclosable_activity_at with
  | none =>
    have he : (NodeE.toNode n).latest_disclosable_activity_at = none := by
      show eraseTs n.latest_disclosable_activity_at = none
      rw [hv]
      rfl
    unfold resolveNodePrimaryE resolveNodePrimary
    rw [hv, he]
  | some v =>
    cases v with
    | iso t =>
      have he : (NodeE.toNode n).latest_disclosable_activity_at = some t := by
        show eraseTs n.latest_disclosable_activity_at = some t
        rw [hv]
        rfl
      unfold resolveNodePrimaryE resolveNodePrimary
      rw [hv, he]
      rfl
    | malformed s =>
      rw [hv] at h
      simp [tsOk] at h

/-- On a node whose timestamp attribute parses (or is absent), the
fallible unfiltered step returns exactly what the total resolver produces
on the erased node. -/
theorem resolveNodeUE_agrees {included : List Included} {n : NodeE}
    (h : tsOk n.disclosed_at = true) :
    resolveNodeUE included n = Except.ok (resolveNodeU included (NodeE.toNode n)) := by
  cases hv : n.disclosed_at with
  | none =>
    have he : (NodeE.toNode n).disclosed_at = none := by
      show eraseTs n.disclosed_at = none
      rw [hv]
      rfl
    unfold resolveNodeUE resolveNodeU
    rw [hv, he]
  | some v =>
    cases v with
    | iso t =>
      have he : (NodeE.toNode n).disclosed_at = some t := by
        show eraseTs n.disclosed_at = some t
        rw [hv]
        rfl
      unfold resolveNodeUE resolveNodeU
      rw [hv, he]
      rfl
    | malformed s =>
      rw [hv] at h
      simp [tsOk] at h

/-- On a raw page whose truthy activity timestamps all parse, the fallible
primary extraction agrees with the total resolver over the erased nodes:
`Node` is the faithful well-formed fragment of `NodeE`. -/
theorem resolvePagePrimaryE_refines (included : List Included) (nodes : List NodeE)
    (h : ∀ n ∈ nodes, tsOk n.latest_disclosable_activity_at = true) :
    resolvePagePrimaryE included nodes
      = Except.ok ((nodes.map NodeE.toNode).filterMap (resolveNodePrimary included)) := by
  rw [List.filterMap_map]
  exact extractNodes_refines (resolveNodePrimaryE included)
    (fun n => resolveNodePrimary included (NodeE.toNode n)) nodes
    (fun n hn => resolveNodePrimaryE_agrees (h n hn))

/-- Unfiltered analogue of `resolvePagePrimaryE_refines`. -/
theorem resolvePageUE_refines (included : List Included) (nodes : List NodeE)
    (h : ∀ n ∈ nodes, tsOk n.disclosed_at = true) :
    resolvePageUE included nodes
      = Except.ok ((nodes.map NodeE.toNode).filterMap (resolveNodeU included)) := by
  rw [List.filterMap_map]
  exact extractNodes_refines (resolveNodeUE included)
    (fun n => resolveNodeU included (NodeE.toNode n)) nodes
    (fun n hn => resolveNodeUE_agrees (h n hn))

/-- C9 (corrected, amended).  A node whose timestamp attribute is absent
(falsy) produces no record while extraction of the remaining nodes
continues; but a node whose timestamp attribute is present and
unparseable raises `ValueError` and aborts record extraction as a whole
(no per-node isolation), in both the primary and the unfiltered resolver. -/
theorem timestamp_resolution_behavior (included : List Included)
    (pre post : List NodeE) (bad mal : NodeE) (s : String)
    (h1 : bad.latest_disclosable_activity_at = none)
    (h2 : bad.disclosed_at = none)
    (h3 : mal.latest_disclosable_activity_at = some (TsAttr.malformed s))
    (h4 : mal.disclosed_at = some (TsAttr.malformed s))
    (h5 : ∀ n ∈ pre, tsOk n.latest_disclosable_activity_at = true)
    (h6 : ∀ n ∈ pre, tsOk n.disclosed_at = true) :
    resolvePagePrimaryE included (pre ++ bad :: post)
        = resolvePagePrimaryE included (pre ++ post)
  ∧ resolvePageUE included (pre ++ bad :: post)
        = resolvePageUE included (pre ++ post)
  ∧ resolvePagePrimaryE included (pre ++ mal :: post) = Except.error s
  ∧ resolvePageUE included (pre ++ mal :: post) = Except.error s := by
  refine ⟨?_, ?_, ?_, ?_⟩
  · refine extractNodes_skip _ bad ?_ pre post
    unfold resolveNodePrimaryE
    rw [h1]
  · refine extractNodes_skip _ bad ?_ pre post
    unfold resolveNodeUE
    rw [h2]
  · refine extractNodes_abort _ mal s ?_ pre post
      (fun n hn => ⟨_, resolveNodePrimaryE_agrees (h5 n hn)⟩)
    unfold resolveNodePrimaryE
    rw [h3]
    rfl
  · refine extractNodes_abort _ mal s ?_ pre post
      (fun n hn => ⟨_, resolveNodeUE_agrees (h6 n hn)⟩)
    unfold resolveNodeUE
    rw [h4]
    rfl

/-- Raw node with both timestamp attributes absent, for the C9 witness. -/
def tsAbsentE : NodeE :=
  { id := some "n0", total_awarded_amount := some 5, total_awarded_amount_in_usd := none
    awarded_amount := none, bounty_amount := none
    latest_disclosable_activity_at := none, disclosed_at := none
    program := none, award := none, team := none }

/-- Well-formed raw node preceding the malformed one in the C9 scenario. -/
def goodE : NodeE :=
  { id := some "g1", total_awarded_amount := some 10, total_awarded_amount_in_usd := none
    awarded_amount := none, bounty_amount := none
    latest_disclosable_activity_at := some (TsAttr.iso 100)
    disclosed_at := some (TsAttr.iso 100)
    program := none, award := none, team := none }

/-- Raw node whose timestamp strings `fromisoformat` rejects. -/
def malE : NodeE :=
  { id := some "m", total_awarded_amount := some 40, total_awarded_amount_in_usd := none
    awarded_amount := none, bounty_amount := none
    latest_disclosable_activity_at := some (TsAttr.malformed "zzz")
    disclosed_at := some (TsAttr.malformed "zzz")
    program := none, award := none, team := none }

/-- Well-formed raw node following the malformed one in the C9 scenario. -/
def goodE2 : NodeE :=
  { id := some "g2", total_awarded_amount := some 20, total_awarded_amount_in_usd := none
    awarded_amount := none, bounty_amount := none
    latest_disclosable_activity_at := some (TsAttr.iso 90)
    disclosed_at := some (TsAttr.iso 90)
    program := none, award := none, team := none }

/-- Witness for `timestamp_resolution_behavior` at concrete nodes. -/
theorem timestamp_resolution_behavior_witness :
    resolvePagePrimaryE [] ([goodE] ++ malE :: [goodE2]) = Except.error "zzz" :=
  (timestamp_resolution_behavior [] [goodE] [goodE2] tsAbsentE malE "zzz"
    rfl rfl rfl rfl (by decide) (by decide)).2.2.1

/-- Counterexample to C9 as stated: one node with a present but
unparseable timestamp makes extraction of the whole page fail — the later
well-formed node is lost — although the same page without it extracts
fine.  No per-node error isolation exists. -/
theorem malformed_timestamp_aborts_extraction :
    resolvePagePrimaryE [] [goodE, malE, goodE2] = Except.error "zzz"
  ∧ resolvePageUE [] [goodE, malE, goodE2] = Except.error "zzz"
  ∧ resolvePagePrimaryE [] [goodE, goodE2]
      = Except.ok [⟨"g1", "Unknown Program", 10, 100⟩, ⟨"g2", "Unknown Program", 20, 90⟩] :=
  ⟨rfl, rfl, rfl⟩

/-- Counterexample to C6 as stated: when further query parameters follow
the cursor parameter, the source keeps the whole trailing suffix, not the
parameter's bare value. -/
theorem cursor_unwrap_keeps_trailing_params :
    resolvedNext (NextLink.asStr "https://api.example/h?page[cursor]=abc&page[size]=100")
        = some "abc&page[size]=100"
  ∧ ("abc&page[size]=100" : String) ≠ "abc" :=
  ⟨by decide, by decide⟩
